import Mathlib

/-!
Shallow embedding of the MiniMax coding-agent coordinator (`src/main.py`):
the Bearings Assembler (`get_bearings`), the progress-log writer
(`update_progress`), and the two session entry points
(`initialize_project`, `coding_session`), over an explicit durable
project state.  External collaborators (the model provider, the shell,
git, `json.loads`) are modelled by their observable outcomes, passed in
as parameters or abstracted by outcome classes.
-/

namespace CodingAgent

/-- JSON values as produced by Python's `json.loads`: null, booleans,
numbers (modelled as integers — fractional values play no role here),
strings, arrays, and objects (field lists). -/
inductive JVal where
  | null : JVal
  | bool : Bool → JVal
  | num : Int → JVal
  | str : String → JVal
  | arr : List JVal → JVal
  | obj : List (String × JVal) → JVal

/-- Python truthiness of a `json.loads` value, as used by
`if f.get("passes", False)`: None/False/0/""/[]/{} are falsy, everything
else truthy. -/
def truthy : JVal → Bool
  | .null => false
  | .bool b => b
  | .num n => n != 0
  | .str s => s != ""
  | .arr xs => !xs.isEmpty
  | .obj fs => !fs.isEmpty

/-- Field lookup in a JSON object (Python dict with distinct keys). -/
def lookupField : List (String × JVal) → String → Option JVal
  | [], _ => none
  | (k2, v) :: rest, k => if k2 = k then some v else lookupField rest k

/-- Python `d.get(key, default)` on a dict. -/
def dictGet (fs : List (String × JVal)) (k : String) (d : JVal) : JVal :=
  match lookupField fs k with
  | some v => v
  | none => d

/-- Exceptions the bearings code can raise (beyond the caught
`json.JSONDecodeError`). -/
inductive PyErr where
  | typeError       -- iterating a non-iterable json.loads result
  | attributeError  -- calling .get on a non-dict element
deriving DecidableEq

/-- `[f for f in feature_data if f.get("passes", False)]` over the
already-extracted iteration elements: keeps the dict elements whose
`passes` value is truthy; a non-dict element raises `AttributeError`
at `.get`. -/
def passesFilter : List JVal → Except PyErr (List JVal)
  | [] => .ok []
  | .obj fs :: rest =>
      match passesFilter rest with
      | .error e => .error e
      | .ok r =>
          .ok (if truthy (dictGet fs "passes" (.bool false)) then .obj fs :: r else r)
  | _ :: _ => .error .attributeError

/-- Python iteration `for f in feature_data` over a `json.loads` result:
lists iterate their elements, strings iterate their one-character
substrings, dicts iterate their keys; None/booleans/numbers are not
iterable (`TypeError`). -/
def iterElems : JVal → Except PyErr (List JVal)
  | .arr xs => .ok xs
  | .str s => .ok (s.toList.map fun c => .str ⟨[c]⟩)
  | .obj fs => .ok (fs.map fun p => .str p.1)
  | _ => .error .typeError

/-- Content of `feature_list.json`, abstracted by the outcome of
`json.loads` on it: the empty string (falsy, so never parsed), a
non-empty string on which `json.loads` raises `JSONDecodeError`, or a
non-empty string parsing to a JSON value. Every text is in exactly one
class and the coordinator's behaviour depends only on the class. -/
inductive LedgerText where
  | empty : LedgerText
  | invalid : LedgerText
  | parsed : JVal → LedgerText

/-- One entry of the `workspace/` directory as seen by `Path.iterdir`:
its name and whether it is a regular file. -/
structure Entry where
  name : String
  isFile : Bool
deriving DecidableEq

/-- The durable project state the coordinator reads and writes:
the workspace directory listing (`none` = directory absent), the git
commit summaries (newest first, one line per commit, `[]` = no history),
the content of `claude-progress.txt` (`none` = file absent), and the
content of `feature_list.json` (`none` = file absent). -/
structure ProjectState where
  workspace : Option (List Entry)
  gitHistory : List String
  progressLog : Option String
  ledger : Option LedgerText

/-- Characters removed by Python `str.strip()`. -/
def pyWhitespace (c : Char) : Bool :=
  c = ' ' || c = '\t' || c = '\n' || c = '\r' || c = '\x0b' || c = '\x0c'

/-- Python `str.strip()`: drop whitespace from both ends. -/
def pyStrip (s : String) : String :=
  ⟨((s.toList.dropWhile pyWhitespace).reverse.dropWhile pyWhitespace).reverse⟩

/-- Helper for `pySplitNL`: accumulates the current line (reversed). -/
def splitLinesAux : List Char → List Char → List String
  | [], acc => [⟨acc.reverse⟩]
  | c :: rest, acc =>
      if c = '\n' then ⟨acc.reverse⟩ :: splitLinesAux rest []
      else splitLinesAux rest (c :: acc)

/-- Python `s.split('\n')`: split at every newline, keeping empty
pieces (`"".split('\n') == [""]`). -/
def pySplitNL (s : String) : List String := splitLinesAux s.toList []

/-- Python `l[-n:]`: the last `n` elements (all of them when `n ≥ len`). -/
def tailSlice (n : Nat) (l : List α) : List α := l.drop (l.length - n)

/-- Outcome of `run_shell("git log --oneline -20")`: fails (non-zero
exit) when there is no commit history, otherwise succeeds with one
summary line per commit, newest first, at most 20 (the `stdout.strip()
.split('\n')` decoding of the captured output — `--oneline` emits
exactly one line per commit). -/
def gitLogLines (s : ProjectState) : Except Unit (List String) :=
  if s.gitHistory.isEmpty then .error () else .ok (s.gitHistory.take 20)

/-- The `status` dict built by `get_bearings`.  `progress_history :=
none` models the `"progress_history"` key being absent from the dict:
the code only assigns that key when the progress file exists with
non-empty content, whereas the other keys are pre-initialised. -/
structure Bearings where
  directory : String
  files : List String
  git_log : List String
  features_completed : List JVal
  current_work : Option JVal
  progress_history : Option (List String)

/-- Python `name.startswith('.')`: whether the first character is a
dot. -/
def startsWithDot (s : String) : Bool :=
  match s.data with
  | [] => false
  | c :: _ => c = '.'

/-- `[f.name for f in workspace_dir.iterdir() if f.is_file() and not
f.name.startswith('.')]`, guarded by `workspace_dir.exists()`. -/
def workspaceFiles (s : ProjectState) : List String :=
  match s.workspace with
  | none => []
  | some entries =>
      (entries.filter fun e => e.isFile && !(startsWithDot e.name)).map Entry.name

/-- The `features_completed` computation of `get_bearings`: skip when
the ledger file is absent or its content falsy; swallow
`json.JSONDecodeError` (leaving the pre-initialised `[]`); otherwise
run the comprehension, which may itself raise. -/
def featuresFromLedger : Option LedgerText → Except PyErr (List JVal)
  | none => .ok []
  | some .empty => .ok []
  | some .invalid => .ok []
  | some (.parsed v) =>
      match iterElems v with
      | .error e => .error e
      | .ok elems => passesFilter elems

/-- `get_bearings`: assemble the bearings snapshot from the durable
state.  Raises (propagates) only from the feature-ledger comprehension;
every other step tolerates missing data. -/
def get_bearings (s : ProjectState) : Except PyErr Bearings :=
  match featuresFromLedger s.ledger with
  | .error e => .error e
  | .ok fc =>
      .ok {
        directory := "workspace"
        files := workspaceFiles s
        git_log :=
          match gitLogLines s with
          | .error _ => []
          | .ok lines => lines.take 10
        features_completed := fc
        current_work := none
        progress_history :=
          match s.progressLog with
          | none => none
          | some c =>
              if c = "" then none
              else some (tailSlice 5 (pySplitNL (pyStrip c)))
      }

/-- The log line `update_progress` appends: `f"[{timestamp}] {message}\n"`. -/
def progressEntry (ts msg : String) : String :=
  "[" ++ ts ++ "] " ++ msg ++ "\n"

/-- `update_progress`: append one timestamped entry to
`claude-progress.txt`, creating the file when absent.  The timestamp
(`datetime.now().isoformat()`) is passed in as `ts`. -/
def update_progress (ts msg : String) (s : ProjectState) : ProjectState :=
  { s with progressLog := some (s.progressLog.getD "" ++ progressEntry ts msg) }

/-- `save_agent_output`: the output-application step.  Its body in the
source is `pass` — a no-op that writes nothing. -/
def save_agent_output (_response : String) (s : ProjectState) : ProjectState := s

/-- `git_commit`: `git add -A && git commit -m msg`.  Creates a commit
(a new newest summary) iff the working tree had changes to commit
(`hasChanges`); with nothing to commit, git exits non-zero and the
failure is tolerated. -/
def git_commit (message : String) (hasChanges : Bool) (s : ProjectState) : ProjectState :=
  if hasChanges then { s with gitHistory := message :: s.gitHistory } else s

/-- Observable session events, used to count agent invocations,
output applications, commit attempts and progress appends. -/
inductive Event where
  | progressAppend : String → Event
  | agentCall : Event
  | outputApplied : Event
  | commitAttempt : String → Event
deriving DecidableEq

/-- Result of running a session: the durable state afterwards, the
events that occurred in order, and whether the session ran to
completion (no uncaught exception). -/
structure SessionResult where
  state : ProjectState
  events : List Event
  completed : Bool

/-- `initialize_project`: append the start entry, assemble bearings
(may raise from the ledger comprehension), call the model
(`modelResult` is the provider's outcome), apply the output (no-op),
commit, append the completion entry.  An exception aborts the remaining
steps but leaves prior durable writes intact. -/
def initialize_project (ts1 ts2 : String) (modelResult : Except Unit String)
    (hasChanges : Bool) (s : ProjectState) : SessionResult :=
  let s1 := update_progress ts1 "开始初始化项目" s
  let e1 := [Event.progressAppend (progressEntry ts1 "开始初始化项目")]
  match get_bearings s1 with
  | .error _ => { state := s1, events := e1, completed := false }
  | .ok _ =>
      match modelResult with
      | .error _ => { state := s1, events := e1 ++ [Event.agentCall], completed := false }
      | .ok response =>
          let s2 := save_agent_output response s1
          let s3 := git_commit "Initial commit: project setup" hasChanges s2
          let s4 := update_progress ts2 "项目初始化完成" s3
          { state := s4
            events := e1 ++ [Event.agentCall, Event.outputApplied,
              Event.commitAttempt "Initial commit: project setup",
              Event.progressAppend (progressEntry ts2 "项目初始化完成")]
            completed := true }

/-- `coding_session`: assemble bearings (may raise), read the feature
file (no effect), call the model, apply the output (no-op), commit,
append the completion entry.  `_userInstruction` only shapes the prompt
text, which is external to the durable state. -/
def coding_session (ts : String) (_userInstruction : Option String)
    (modelResult : Except Unit String) (hasChanges : Bool)
    (s : ProjectState) : SessionResult :=
  match get_bearings s with
  | .error _ => { state := s, events := [], completed := false }
  | .ok _ =>
      match modelResult with
      | .error _ => { state := s, events := [Event.agentCall], completed := false }
      | .ok response =>
          let s2 := save_agent_output response s
          let s3 := git_commit "Update: progress from coding session" hasChanges s2
          let s4 := update_progress ts "编码会话完成" s3
          { state := s4
            events := [Event.agentCall, Event.outputApplied,
              Event.commitAttempt "Update: progress from coding session",
              Event.progressAppend (progressEntry ts "编码会话完成")]
            completed := true }

/-- A Feature Record marked complete: a JSON object whose `passes`
field is present and literally `true`. -/
def recordPassesTrue : JVal → Bool
  | .obj fs =>
      match lookupField fs "passes" with
      | some (.bool true) => true
      | _ => false
  | _ => false

/-- Number of Feature Records with `passes=true` in the ledger file
(0 when the file is absent, unparseable, or not a JSON list). -/
def passesTrueCount (s : ProjectState) : Nat :=
  match s.ledger with
  | some (.parsed (.arr xs)) => (xs.filter recordPassesTrue).length
  | _ => 0

/-- A project state with an empty workspace and none of the three
durable artifacts. -/
def emptyProject : ProjectState :=
  { workspace := some [], gitHistory := [], progressLog := none, ledger := none }

theorem update_progress_ledger (ts msg : String) (s : ProjectState) :
    (update_progress ts msg s).ledger = s.ledger := rfl

theorem git_commit_ledger (m : String) (hc : Bool) (s : ProjectState) :
    (git_commit m hc s).ledger = s.ledger := by
  unfold git_commit
  split <;> rfl

theorem initialize_project_ledger (ts1 ts2 : String) (mr : Except Unit String)
    (hc : Bool) (s : ProjectState) :
    (initialize_project ts1 ts2 mr hc s).state.ledger = s.ledger := by
  simp only [initialize_project]
  cases get_bearings (update_progress ts1 "开始初始化项目" s) with
  | error e => rfl
  | ok b =>
      cases mr with
      | error u => rfl
      | ok r =>
          exact (update_progress_ledger ts2 "项目初始化完成" _).trans
            ((git_commit_ledger "Initial commit: project setup" hc _).trans rfl)

theorem coding_session_ledger (ts : String) (ui : Option String)
    (mr : Except Unit String) (hc : Bool) (s : ProjectState) :
    (coding_session ts ui mr hc s).state.ledger = s.ledger := by
  simp only [coding_session]
  cases get_bearings s with
  | error e => rfl
  | ok b =>
      cases mr with
      | error u => rfl
      | ok r =>
          exact (update_progress_ledger ts "编码会话完成" _).trans
            ((git_commit_ledger "Update: progress from coding session" hc _).trans rfl)

theorem passesTrueCount_eq_of_ledger {s1 s2 : ProjectState}
    (h : s1.ledger = s2.ledger) : passesTrueCount s1 = passesTrueCount s2 := by
  unfold passesTrueCount
  rw [h]

/-- C1: across every session (initialization or coding), the number of
Feature Records with `passes=true` in `feature_list.json` after the
session is at most the count before plus one — in this code the ledger
is never rewritten (`save_agent_output` is a no-op), so the count is in
fact unchanged. -/
theorem at_most_one_completion_per_session (ts1 ts2 ts : String)
    (mrInit mrCode : Except Unit String) (hcInit hcCode : Bool)
    (ui : Option String) (s : ProjectState) :
    passesTrueCount (initialize_project ts1 ts2 mrInit hcInit s).state ≤
      passesTrueCount s + 1 ∧
    passesTrueCount (coding_session ts ui mrCode hcCode s).state ≤
      passesTrueCount s + 1 := by
  constructor
  · rw [passesTrueCount_eq_of_ledger (initialize_project_ledger ts1 ts2 mrInit hcInit s)]
    exact Nat.le_succ _
  · rw [passesTrueCount_eq_of_ledger (coding_session_ledger ts ui mrCode hcCode s)]
    exact Nat.le_succ _

/-- A project whose progress log already holds one entry, used to
exhibit the initialization session's pre-model-call write. -/
def c2Project : ProjectState :=
  { workspace := some [], gitHistory := [], progressLog := some "[t0] x\n", ledger := none }

/-- C2 counterexample: in the initialization session a model-call
failure does NOT leave the progress log byte-identical — the
start-of-session entry was appended before the model call and
persists. -/
theorem init_model_failure_writes_progress :
    (initialize_project "T1" "T2" (Except.error ()) true c2Project).state.progressLog ≠
      c2Project.progressLog := by decide

/-- C2 amended: when the model-provider call fails, the coding session
performs no durable writes at all (the state, hence the progress log
and the commit history, is unchanged); the initialization session
leaves the state exactly as after its start-of-session progress append
(one extra log entry, written before the model call), and in
particular creates no commit. -/
theorem model_failure_durable_writes (ts ts1 ts2 : String) (ui : Option String)
    (hcI hcC : Bool) (s : ProjectState) :
    (coding_session ts ui (Except.error ()) hcC s).state = s ∧
    (initialize_project ts1 ts2 (Except.error ()) hcI s).state =
      update_progress ts1 "开始初始化项目" s ∧
    (initialize_project ts1 ts2 (Except.error ()) hcI s).state.gitHistory =
      s.gitHistory := by
  refine ⟨?_, ?_, ?_⟩
  · simp only [coding_session]
    cases get_bearings s with
    | error e => rfl
    | ok b => rfl
  · simp only [initialize_project]
    cases get_bearings (update_progress ts1 "开始初始化项目" s) with
    | error e => rfl
    | ok b => rfl
  · simp only [initialize_project]
    cases get_bearings (update_progress ts1 "开始初始化项目" s) with
    | error e => rfl
    | ok b => rfl

/-- The snapshot `get_bearings` returns on `emptyProject`: note the
`progress_history` key is absent (`none`), not an empty default. -/
def emptyProjectBearings : Bearings :=
  { directory := "workspace", files := [], git_log := [], features_completed := [],
    current_work := none, progress_history := none }

/-- C3 counterexample: on the empty project `get_bearings` does not
raise, but the snapshot's `progress_history` key is absent — it is not
present with an empty value. -/
theorem bearings_empty_project_missing_key :
    get_bearings emptyProject = Except.ok emptyProjectBearings ∧
    emptyProjectBearings.progress_history = none ∧
    emptyProjectBearings.progress_history ≠ some [] :=
  ⟨rfl, rfl, by decide⟩

/-- C3 amended: with the progress log, the ledger and the
version-control history all absent (any workspace listing),
`get_bearings` does not raise and returns a snapshot whose `files`,
`git_log` and `features_completed` fields are present with
empty/default values, but whose `progress_history` key is absent. -/
theorem bearings_absent_artifacts (ws : Option (List Entry)) :
    get_bearings ⟨ws, [], none, none⟩ =
      Except.ok ⟨"workspace", workspaceFiles ⟨ws, [], none, none⟩, [], [], none, none⟩ :=
  rfl

/-- A project whose ledger file holds `5` — valid JSON, but not a list
of feature records. -/
def badLedgerProject : ProjectState :=
  { workspace := some [], gitHistory := [], progressLog := none,
    ledger := some (.parsed (.num 5)) }

/-- C4 counterexample: ledger content that is valid JSON but not the
expected list-of-records shape is NOT swallowed — `get_bearings`
raises `TypeError` (iterating a number) instead of returning a
snapshot with an empty feature list. -/
theorem malformed_ledger_raises :
    get_bearings badLedgerProject = Except.error PyErr.typeError := rfl

/-- C4 amended: ledger content on which the JSON parse itself fails
(`json.JSONDecodeError`) is always swallowed — `get_bearings` returns a
snapshot whose `features_completed` is the empty list.  Malformation
that survives the parse is not uniformly swallowed and not uniformly
fatal: the bare number `5` raises and fails the whole snapshot (see the
counterexample), while the empty JSON object `{}` and the empty JSON
string `""` iterate vacuously and also degrade to an empty feature
list. -/
theorem undecodable_ledger_swallowed (s : ProjectState)
    (h : s.ledger = some LedgerText.invalid) :
    (get_bearings s).map Bearings.features_completed = Except.ok [] ∧
    (get_bearings ⟨some [], [], none, some (.parsed (.obj []))⟩).map
      Bearings.features_completed = Except.ok [] ∧
    (get_bearings ⟨some [], [], none, some (.parsed (.str ""))⟩).map
      Bearings.features_completed = Except.ok [] := by
  refine ⟨?_, rfl, rfl⟩
  unfold get_bearings
  rw [h]
  rfl

theorem undecodable_ledger_swallowed_witness :
    (get_bearings ⟨some [], [], none, some LedgerText.invalid⟩).map
      Bearings.features_completed = Except.ok [] ∧
    (get_bearings ⟨some [], [], none, some (.parsed (.obj []))⟩).map
      Bearings.features_completed = Except.ok [] ∧
    (get_bearings ⟨some [], [], none, some (.parsed (.str ""))⟩).map
      Bearings.features_completed = Except.ok [] :=
  undecodable_ledger_swallowed ⟨some [], [], none, some LedgerText.invalid⟩ rfl

/-- C5: for every prior progress-log content (absent treated as empty)
and every message, `update_progress` leaves the log equal to the prior
content followed by exactly one new line `[<timestamp>] <message>`
terminated by a newline — one more newline-terminated entry, nothing
reordered, edited or removed.  The timestamp and message are
newline-free, as `datetime.isoformat` timestamps and the coordinator's
fixed messages are. -/
theorem update_progress_appends (ts msg : String) (s : ProjectState)
    (hts : ts.data.count '\n' = 0) (hmsg : msg.data.count '\n' = 0) :
    (update_progress ts msg s).progressLog =
      some (s.progressLog.getD "" ++ ("[" ++ ts ++ "] " ++ msg ++ "\n")) ∧
    (s.progressLog.getD "" ++ ("[" ++ ts ++ "] " ++ msg ++ "\n")).data.count '\n' =
      (s.progressLog.getD "").data.count '\n' + 1 := by
  constructor
  · rfl
  · have hb : ("[" : String).data.count '\n' = 0 := rfl
    have hm : ("] " : String).data.count '\n' = 0 := rfl
    have hn : ("\n" : String).data.count '\n' = 1 := rfl
    simp [String.data_append, List.count_append, hts, hmsg, hb, hm, hn]

theorem update_progress_appends_witness :
    (update_progress "T" "m" emptyProject).progressLog =
      some (emptyProject.progressLog.getD "" ++ ("[" ++ "T" ++ "] " ++ "m" ++ "\n")) ∧
    (emptyProject.progressLog.getD "" ++ ("[" ++ "T" ++ "] " ++ "m" ++ "\n")).data.count '\n' =
      (emptyProject.progressLog.getD "").data.count '\n' + 1 :=
  update_progress_appends "T" "m" emptyProject rfl rfl

/-- Whether an event is a progress-log append. -/
def isProgressAppend : Event → Bool
  | .progressAppend _ => true
  | _ => false

/-- Number of progress-log appends among a session's events. -/
def countProgressAppends (evs : List Event) : Nat :=
  (evs.filter isProgressAppend).length

/-- C6 counterexample: a completed initialization session appends TWO
progress entries (the start entry and the completion entry), not
exactly one. -/
theorem init_session_two_progress_entries :
    (initialize_project "T1" "T2" (Except.ok "resp") true emptyProject).completed = true ∧
    countProgressAppends
      (initialize_project "T1" "T2" (Except.ok "resp") true emptyProject).events ≠ 1 ∧
    countProgressAppends
      (initialize_project "T1" "T2" (Except.ok "resp") true emptyProject).events = 2 ∧
    (initialize_project "T1" "T2" (Except.ok "resp") true emptyProject).state.progressLog =
      some "[T1] 开始初始化项目\n[T2] 项目初始化完成\n" :=
  ⟨rfl, by decide, rfl, by decide⟩

/-- C6 amended: every initialization session that runs to completion
invokes the agent exactly once, applies its output once, attempts
exactly one commit, and appends exactly TWO progress entries — the
session-start entry written before the model call and the completion
entry written after the commit. -/
theorem init_session_event_trace (ts1 ts2 resp : String) (hc : Bool) (s : ProjectState)
    (h : (initialize_project ts1 ts2 (Except.ok resp) hc s).completed = true) :
    (initialize_project ts1 ts2 (Except.ok resp) hc s).events =
      [Event.progressAppend (progressEntry ts1 "开始初始化项目"), Event.agentCall,
        Event.outputApplied, Event.commitAttempt "Initial commit: project setup",
        Event.progressAppend (progressEntry ts2 "项目初始化完成")] := by
  simp only [initialize_project] at h ⊢
  cases hgb : get_bearings (update_progress ts1 "开始初始化项目" s) with
  | error e =>
      rw [hgb] at h
      simp at h
  | ok b => rfl

theorem init_session_event_trace_witness :
    (initialize_project "T1" "T2" (Except.ok "resp") false emptyProject).events =
      [Event.progressAppend (progressEntry "T1" "开始初始化项目"), Event.agentCall,
        Event.outputApplied, Event.commitAttempt "Initial commit: project setup",
        Event.progressAppend (progressEntry "T2" "项目初始化完成")] :=
  init_session_event_trace "T1" "T2" "resp" false emptyProject rfl

/-- Running `get_bearings` as a state transition: its body only reads
durable state (a directory listing, `git log`, and two file reads), so
it returns the snapshot and leaves the project state unchanged. -/
def get_bearings_run (s : ProjectState) : ProjectState × Except PyErr Bearings :=
  (s, get_bearings s)

/-- C7: Bearings Assembly is side-effect-free and idempotent: the call
leaves the durable state unchanged, and calling it twice with no
intervening writes yields identical snapshots. -/
theorem bearings_idempotent (s : ProjectState) :
    (get_bearings_run s).1 = s ∧
    (get_bearings_run (get_bearings_run s).1).2 = (get_bearings_run s).2 ∧
    (get_bearings_run (get_bearings_run s).1).1 = s :=
  ⟨rfl, rfl, rfl⟩

/-- The progress-log lines as `get_bearings` computes them:
`progress.strip().split('\n')` of the file content (absent = empty). -/
def progressLines (s : ProjectState) : List String :=
  pySplitNL (pyStrip (s.progressLog.getD ""))

/-- C8: every snapshot `get_bearings` returns bounds its history
fields: `git_log` holds at most 10 of the most recent commit summaries
(a prefix of the newest-first history), and `progress_history` holds at
most the 5 most recent progress-log lines, in log order (a suffix of
the log's lines). -/
theorem bearings_bounded_history (s : ProjectState) (b : Bearings)
    (h : get_bearings s = Except.ok b) :
    b.git_log.length ≤ 10 ∧ b.git_log <+: s.gitHistory ∧
    (b.progress_history.getD []).length ≤ 5 ∧
    (b.progress_history.getD []) <:+ progressLines s := by
  unfold get_bearings at h
  cases hfc : featuresFromLedger s.ledger with
  | error e =>
      rw [hfc] at h
      exact Except.noConfusion h
  | ok fc =>
      rw [hfc] at h
      injection h with hb
      subst hb
      refine ⟨?_, ?_, ?_, ?_⟩
      · by_cases hE : s.gitHistory.isEmpty = true
        · simp [gitLogLines, hE]
        · simp [gitLogLines, hE, List.length_take]
      · by_cases hE : s.gitHistory.isEmpty = true
        · simp only [gitLogLines, hE, if_true]
          exact ⟨s.gitHistory, rfl⟩
        · simp only [gitLogLines, hE, if_false, Bool.false_eq_true]
          rw [List.take_take]
          exact ⟨s.gitHistory.drop (min 10 20), List.take_append_drop _ _⟩
      · cases hP : s.progressLog with
        | none => simp
        | some c =>
            by_cases hc : c = ""
            · simp [hc]
            · simp [hc, tailSlice, List.length_drop]
              omega
      · cases hP : s.progressLog with
        | none => exact ⟨progressLines s, by simp⟩
        | some c =>
            by_cases hc : c = ""
            · exact ⟨progressLines s, by simp [hc]⟩
            · simp only [hc, if_false, Option.getD_some, Bool.false_eq_true]
              simp only [progressLines, hP, Option.getD_some, tailSlice]
              exact ⟨(pySplitNL (pyStrip c)).take ((pySplitNL (pyStrip c)).length - 5),
                List.take_append_drop _ _⟩

/-- A project with one commit and one progress entry. -/
def c8Project : ProjectState :=
  { workspace := some [], gitHistory := ["c1"], progressLog := some "[T] a\n", ledger := none }

/-- The snapshot `get_bearings` returns on `c8Project`. -/
def c8Bearings : Bearings :=
  { directory := "workspace", files := [], git_log := ["c1"], features_completed := [],
    current_work := none, progress_history := some ["[T] a"] }

theorem bearings_bounded_history_witness :
    c8Bearings.git_log.length ≤ 10 ∧ c8Bearings.git_log <+: c8Project.gitHistory ∧
    (c8Bearings.progress_history.getD []).length ≤ 5 ∧
    (c8Bearings.progress_history.getD []) <:+ progressLines c8Project :=
  bearings_bounded_history c8Project c8Bearings rfl

/-- C9: the `files` field of every snapshot `get_bearings` returns
contains exactly the names of the regular files directly inside the
workspace directory whose names do not start with `.`; subdirectories
and dot-prefixed entries never appear. -/
theorem bearings_files_exact (s : ProjectState) (b : Bearings)
    (h : get_bearings s = Except.ok b) (nm : String) :
    nm ∈ b.files ↔
      ∃ e, e ∈ s.workspace.getD [] ∧ e.isFile = true ∧
        startsWithDot e.name = false ∧ e.name = nm := by
  unfold get_bearings at h
  cases hfc : featuresFromLedger s.ledger with
  | error e =>
      rw [hfc] at h
      exact Except.noConfusion h
  | ok fc =>
      rw [hfc] at h
      injection h with hb
      subst hb
      show nm ∈ workspaceFiles s ↔ _
      unfold workspaceFiles
      cases s.workspace with
      | none => simp
      | some entries =>
          simp only [Option.getD_some, List.mem_map, List.mem_filter,
            Bool.and_eq_true, Bool.not_eq_true']
          constructor
          · rintro ⟨e, ⟨he, hf, hd⟩, hn⟩
            exact ⟨e, he, hf, hd, hn⟩
          · rintro ⟨e, he, hf, hd, hn⟩
            exact ⟨e, ⟨he, hf, hd⟩, hn⟩

/-- A project whose workspace holds a plain file, a hidden file, and a
subdirectory. -/
def c9Project : ProjectState :=
  { workspace := some [⟨"a.txt", true⟩, ⟨".hidden", true⟩, ⟨"sub", false⟩],
    gitHistory := [], progressLog := none, ledger := none }

/-- The snapshot `get_bearings` returns on `c9Project`. -/
def c9Bearings : Bearings :=
  { directory := "workspace", files := ["a.txt"], git_log := [], features_completed := [],
    current_work := none, progress_history := none }

theorem bearings_files_exact_witness :
    "a.txt" ∈ c9Bearings.files ↔
      ∃ e, e ∈ c9Project.workspace.getD [] ∧ e.isFile = true ∧
        startsWithDot e.name = false ∧ e.name = "a.txt" :=
  bearings_files_exact c9Project c9Bearings rfl "a.txt"

/-- A project whose ledger is a JSON list holding one record whose
`passes` field is the string `"x"` — present, truthy, but not `true`. -/
def truthyLedgerProject : ProjectState :=
  { workspace := some [], gitHistory := [], progressLog := none,
    ledger := some (.parsed (.arr [.obj [("passes", .str "x")]])) }

/-- C10 counterexample: a record whose `passes` field is present but
not `true` (the truthy string `"x"`) IS included in
`features_completed`, because the code tests Python truthiness of
`f.get("passes", False)`, not equality with `true`. -/
theorem nonbool_passes_included :
    (get_bearings truthyLedgerProject).map Bearings.features_completed =
      Except.ok [JVal.obj [("passes", JVal.str "x")]] ∧
    lookupField [("passes", JVal.str "x")] "passes" = some (JVal.str "x") ∧
    JVal.str "x" ≠ JVal.bool true :=
  ⟨rfl, rfl, fun hx => JVal.noConfusion hx⟩

/-- A record is kept by the comprehension iff it is an object whose
`passes` value (defaulting to `False` when the field is absent) is
Python-truthy; in particular a record lacking the field is excluded,
and a boolean-valued `passes` is kept exactly when it is `true`. -/
def recordTruthyPasses : JVal → Bool
  | .obj fs => truthy (dictGet fs "passes" (.bool false))
  | _ => false

/-- Whether a JSON value is an object. -/
def isObjV : JVal → Bool
  | .obj _ => true
  | _ => false

theorem passesFilter_objs (xs : List JVal) (h : ∀ v ∈ xs, isObjV v = true) :
    passesFilter xs = Except.ok (xs.filter recordTruthyPasses) := by
  induction xs with
  | nil => rfl
  | cons x rest ih =>
      have hx : isObjV x = true := h x (by simp)
      have hrest : ∀ v ∈ rest, isObjV v = true := fun v hv => h v (by simp [hv])
      cases x with
      | obj fs =>
          simp only [passesFilter, ih hrest, List.filter_cons]
          simp only [recordTruthyPasses]
      | null => exact Bool.noConfusion hx
      | bool b => exact Bool.noConfusion hx
      | num n => exact Bool.noConfusion hx
      | str t => exact Bool.noConfusion hx
      | arr ys => exact Bool.noConfusion hx

/-- C10 amended: for a ledger parsing to a JSON list of objects,
`features_completed` contains exactly those records whose `passes`
value (defaulting to `False` when the field is absent) is
Python-truthy.  For boolean-valued `passes` fields this is "present
and true", and a record lacking the field is excluded; but a truthy
non-boolean value (a non-empty string, a non-zero number) is also
included. -/
theorem features_completed_truthy (s : ProjectState) (xs : List JVal)
    (h : s.ledger = some (LedgerText.parsed (JVal.arr xs)))
    (hobj : ∀ v ∈ xs, isObjV v = true) :
    (get_bearings s).map Bearings.features_completed =
      Except.ok (xs.filter recordTruthyPasses) := by
  unfold get_bearings featuresFromLedger
  rw [h]
  simp only [iterElems]
  rw [passesFilter_objs xs hobj]
  rfl

theorem features_completed_truthy_witness :
    (get_bearings ⟨some [], [], none,
        some (.parsed (.arr [JVal.obj [("passes", JVal.bool true)], JVal.obj [],
          JVal.obj [("passes", JVal.bool false)]]))⟩).map Bearings.features_completed =
      Except.ok ([JVal.obj [("passes", JVal.bool true)], JVal.obj [],
        JVal.obj [("passes", JVal.bool false)]].filter recordTruthyPasses) :=
  features_completed_truthy _ _ rfl (by decide)

end CodingAgent
